import Mathlib

/-!
Verification of the job-fetch pipeline in scripts/fetch_and_build.py.

The script is modelled by a shallow embedding: Python strings become
`List Char`, Python `None` becomes `Option`, JSON numbers become `ℚ`
(an exact model of the numeric values the provider sends), and the two
library calls that can raise inside the script (`datetime.fromisoformat`
and the timezone formatting) are abstracted as an explicit environment
of functions returning `Option`.  Python exceptions that escape a
function are modelled with `Except PyErr`.  Every definition mirrors the
corresponding Python function and keeps its name.
-/

namespace FetchBuild

/-- Python strings are modelled as lists of characters. -/
abbrev Str := List Char

/-- The characters Python str.strip removes (ASCII whitespace). -/
def pyIsSpace (c : Char) : Bool :=
  c = ' ' || c = '\t' || c = '\n' || c = '\r' || c = '\x0b' || c = '\x0c'

/-- Python str.strip: drop whitespace from both ends. -/
def stripStr (s : Str) : Str :=
  ((s.dropWhile pyIsSpace).reverse.dropWhile pyIsSpace).reverse

/-- Python str.casefold, restricted to the ASCII case mapping (the script
only compares ASCII search terms and city names). -/
def casefoldStr (s : Str) : Str :=
  s.map Char.toLower

/-- Python substring test needle in hay. -/
def containsSub : Str → Str → Bool
  | hay, needle =>
    needle.isPrefixOf hay ||
      match hay with
      | [] => false
      | _ :: t => containsSub t needle

/-- Python truthiness of an optional string: None and the empty string
are falsy. -/
def pyTruthy : Option Str → Bool
  | none => false
  | some s => !s.isEmpty

/-- Python x or y on two optional strings: yields x when x is truthy,
else y. -/
def pyOr (a b : Option Str) : Option Str :=
  if pyTruthy a then a else b

/-- Python str.split on a semicolon. -/
def splitSemi : Str → List Str
  | [] => [[]]
  | c :: rest =>
    match splitSemi rest with
    | [] => [[c]]
    | h :: t => if c = ';' then [] :: h :: t else (c :: h) :: t

/-- Value of a decimal digit string (the script only ever parses strings
already filtered to digits). -/
def digitsToNat (ds : Str) : ℕ :=
  ds.foldl (fun n c => 10 * n + (c.toNat - '0'.toNat)) 0

/-- Lexicographic strict order on strings by code point, as Python
compares str values. -/
def strLt : Str → Str → Bool
  | [], [] => false
  | [], _ :: _ => true
  | _ :: _, [] => false
  | a :: as, b :: bs =>
    if a.toNat < b.toNat then true
    else if b.toNat < a.toNat then false
    else strLt as bs

/-- A numeric JSON field value as the script consumes it: `some q` when
Python float conversion of the value succeeds with (exact) value `q`,
`none` when the conversion raises. -/
abbrev NumVal := Option ℚ

/-- The location object of a raw Adzuna record. -/
structure RawLocation where
  display_name : Option Str
  area : Option (List Str)
deriving DecidableEq, Repr

/-- The company object of a raw Adzuna record. -/
structure RawCompany where
  display_name : Option Str
deriving DecidableEq, Repr

/-- The category object of a raw Adzuna record. -/
structure RawCategory where
  label : Option Str
deriving DecidableEq, Repr

/-- A raw provider record as returned inside the results array; every
field the script reads, each optional because the script uses dict.get. -/
structure Raw where
  id : Option Str
  title : Option Str
  description : Option Str
  created : Option Str
  redirect_url : Option Str
  company : Option RawCompany
  location : Option RawLocation
  contract_type : Option Str
  contract_time : Option Str
  category : Option RawCategory
  salary_min : Option NumVal
  salary_max : Option NumVal
  salary_is_predicted : Option Str
deriving DecidableEq, Repr

/-- Exclusion reasons recorded by should_exclude: the Python strings
excluded_city and excluded_term:TERM. -/
inductive ExcludeReason where
  | excluded_city : ExcludeReason
  | excluded_term : Str → ExcludeReason
deriving DecidableEq, Repr

/-- The canonical job dictionary built by build_job_obj (plus the keyword
and exclusion reason added later in main). -/
structure Job where
  id : Option Str
  title : Str
  company : Str
  location : Str
  areas : List Str
  created : Str
  created_local : Option Str
  redirect_url : Option Str
  description : Str
  contract_type : Str
  contract_time : Str
  category : Option Str
  salary_min : Option NumVal
  salary_max : Option NumVal
  salary_is_predicted : Str
  source : Str
  is_remote_guess : Bool
  meets_salary : Option Bool
  keyword : Str := []
  exclude_reason : Option ExcludeReason := none
deriving DecidableEq, Repr

/-- Python exceptions that can escape the modelled functions. -/
inductive PyErr where
  | attributeError : PyErr
  | runtimeMissingCredentials : PyErr
deriving DecidableEq, Repr

/-- Environment of Python standard-library behaviour used by the
normalizer: fromiso models datetime.fromisoformat (`none` = the call
raises), with instants abstracted as integers; hasBerlinTz models
whether get_berlin_tz returns a timezone; fmtBerlin models
astimezone(berlin).strftime (`none` = it raises); fmtUTC models the
UTC-labelled strftime fallback. -/
structure TimeEnv where
  fromiso : Str → Option ℤ
  hasBerlinTz : Bool
  fmtBerlin : ℤ → Option Str
  fmtUTC : ℤ → Str

/-- normalize in the script: (s or "").strip() on an optional string. -/
def normalize (s : Option Str) : Str :=
  stripStr (s.getD [])

/-- contains_any in the script: casefolded substring search of any term
in the text, with a falsy text short-circuiting to False. -/
def contains_any (text : Str) (terms : List Str) : Bool :=
  if text.isEmpty then false
  else terms.any fun term => containsSub (casefoldStr text) (casefoldStr term)

/-- extract_annual_salary in the script. -/
def extract_annual_salary (raw : Raw) : Option NumVal × Option NumVal :=
  (raw.salary_min, raw.salary_max)

/-- meets_min_salary in the script: None when both bounds are absent,
else compare float(salary_max or salary_min) with float(min_year); a
failing float conversion (the except branch) yields None. -/
def meets_min_salary (smin smax : Option NumVal) (min_year : ℕ) : Option Bool :=
  match smin, smax with
  | none, none => none
  | _, some v => v.map fun q => decide ((min_year : ℚ) ≤ q)
  | some v, none => v.map fun q => decide ((min_year : ℚ) ≤ q)

/-- Python str.replace of the character Z by +00:00, applied before
ISO-8601 parsing. -/
def replaceZ (s : Str) : Str :=
  (s.map fun c => if c = 'Z' then "+00:00".toList else [c]).flatten

/-- The fixed remote-work terms of the script (the literal list in
build_job_obj, including the German teil-remote). -/
def remote_terms : List Str :=
  ["remote".toList, "homeoffice".toList, "home office".toList,
   "hybrid".toList, "teil-remote".toList]

/-- build_job_obj in the script, given the library environment, a raw
record and the configured minimum annual salary (the only cfg key it
reads).  The generated dictionary is returned with keyword and
exclude_reason still at their defaults, as in the source. -/
def build_job_obj (env : TimeEnv) (raw : Raw) (salary_min_year : ℕ) : Job :=
  let smin := (extract_annual_salary raw).1
  let smax := (extract_annual_salary raw).2
  let created_iso := normalize raw.created
  let created_dt : Option ℤ :=
    if created_iso.isEmpty then none else env.fromiso (replaceZ created_iso)
  let title := normalize raw.title
  let description := normalize raw.description
  let created_local : Option Str :=
    match created_dt with
    | none => none
    | some dt =>
      if env.hasBerlinTz then
        match env.fmtBerlin dt with
        | some s => some s
        | none => some (env.fmtUTC dt)
      else some (env.fmtUTC dt)
  { id := raw.id
    title := title
    company := normalize (raw.company.bind RawCompany.display_name)
    location := normalize (raw.location.bind RawLocation.display_name)
    areas := (raw.location.bind RawLocation.area).getD []
    created := created_iso
    created_local := created_local
    redirect_url := raw.redirect_url
    description := description
    contract_type := normalize raw.contract_type
    contract_time := normalize raw.contract_time
    category := raw.category.bind RawCategory.label
    salary_min := smin
    salary_max := smax
    salary_is_predicted := normalize raw.salary_is_predicted
    source := "Adzuna".toList
    is_remote_guess := contains_any (title ++ ' ' :: description) remote_terms
    meets_salary := meets_min_salary smin smax salary_min_year }

/-- The effective configuration dictionary built at the top of main. -/
structure Config where
  ADZUNA_APP_ID : Option Str
  ADZUNA_APP_KEY : Option Str
  HOME_CITY : Str
  EXCLUDE_CITY : Str
  RADIUS_KM : ℕ
  SALARY_MIN_YEAR : ℕ
  KEYWORDS : List Str
  EXCLUDE_TERMS : List Str
  ADZUNA_MAX_PAGES : ℕ
  RESULTS_PER_PAGE : ℕ
deriving DecidableEq, Repr

/-- job_city_mentions_excluded in the script.  should_exclude passes it
the already normalized job dictionary, whose location key holds a
string, not the raw provider location object.  Python evaluates
job.get("location") or {} to that string when it is non-empty, and the
following loc.get("display_name") then raises AttributeError, because
str has no attribute get.  Only when the location string is empty
(falsy) does the fallback empty dict make display_name and area come
back as None/[], after which the title/description fallback runs. -/
def job_city_mentions_excluded (job : Job) (exclude_city : Str) : Except PyErr Bool :=
  if exclude_city.isEmpty then .ok false
  else if !job.location.isEmpty then .error .attributeError
  else
    let disp := normalize none
    if containsSub (casefoldStr disp) (casefoldStr exclude_city) then .ok true
    else
      let title := stripStr job.title
      let desc := stripStr job.description
      if containsSub (casefoldStr title) (casefoldStr exclude_city)
          || containsSub (casefoldStr desc) (casefoldStr exclude_city) then .ok true
      else .ok false

/-- should_exclude in the script: the city rule first (guarded by the
truthiness of EXCLUDE_CITY, short-circuiting, exceptions propagating),
then the first matching exclusion term. -/
def should_exclude (job : Job) (cfg : Config) : Except PyErr (Bool × Option ExcludeReason) :=
  let termPart : Except PyErr (Bool × Option ExcludeReason) :=
    let hay := casefoldStr (job.title ++ ' ' :: (job.company ++ ' ' :: job.description))
    match cfg.EXCLUDE_TERMS.find? (fun term => containsSub hay (casefoldStr term)) with
    | some term => .ok (true, some (.excluded_term term))
    | none => .ok (false, none)
  if cfg.EXCLUDE_CITY.isEmpty then termPart
  else
    match job_city_mentions_excluded job cfg.EXCLUDE_CITY with
    | .error e => .error e
    | .ok true => .ok (true, some .excluded_city)
    | .ok false => termPart

/-- rank_job in the script: 2 when meets_salary is True, 1 when None,
0 when False. -/
def rank_job (job : Job) : ℕ :=
  match job.meets_salary with
  | some true => 2
  | none => 1
  | some false => 0

/-- The sort key of kept.sort: the Python tuple
(-rank_job(j), j.company.casefold(), j.title.casefold()). -/
def sortKey (j : Job) : ℤ × Str × Str :=
  (-(rank_job j : ℤ), casefoldStr j.company, casefoldStr j.title)

/-- Non-strict lexicographic comparison of sort keys, exactly the order
Python uses on the key tuples (integers, then strings by code point). -/
def keyLE : ℤ × Str × Str → ℤ × Str × Str → Bool
  | (r1, c1, t1), (r2, c2, t2) =>
    if r1 < r2 then true
    else if r2 < r1 then false
    else if strLt c1 c2 then true
    else if strLt c2 c1 then false
    else !(strLt t2 t1)

/-- The key order lifted to jobs. -/
def jobLE (a b : Job) : Bool :=
  keyLE (sortKey a) (sortKey b)

/-- kept.sort(key=lambda j: (-rank_job(j), ...)) in main.  Python
list.sort is a stable sort; it is modelled by the (stable) insertion
sort, whose output any stable sort of a total preorder agrees with. -/
def sortKept (kept : List Job) : List Job :=
  List.insertionSort (fun a b => jobLE a b = true) kept

/-- getenv in the script: the environment value when present and not
blank after trimming, else the supplied default. -/
def getenv (env : Str → Option Str) (name : Str) (default : Option Str) : Option Str :=
  match env name with
  | none => default
  | some v => if (stripStr v).isEmpty then default else some v

/-- parse_int_flexible in the script on a string-or-absent value: strip,
drop every non-digit character, and parse; the default when nothing
digit-like remains (the call sites only ever pass getenv results). -/
def parse_int_flexible (value : Option Str) (default : ℕ) : ℕ :=
  match value with
  | none => default
  | some v =>
    let s := (stripStr v).filter Char.isDigit
    if s.isEmpty then default else digitsToNat s

/-- parse_list_semicolons in the script: split on semicolons, trim the
pieces, drop the blank ones; the default for a falsy input. -/
def parse_list_semicolons (s : Option Str) (default : List Str) : List Str :=
  match s with
  | none => default
  | some v =>
    if v.isEmpty then default
    else (splitSemi v).filterMap fun x =>
      let t := stripStr x
      if t.isEmpty then none else some t

/-- The default keyword list of main. -/
def default_keywords : List Str :=
  ["Mediengestalter".toList, "Webdesigner".toList, "WordPress".toList,
   "TYPO3".toList, "SEO".toList, "Content Manager".toList,
   "Social Media".toList, "Digital Marketing".toList]

/-- The default exclusion-term list of main. -/
def default_exclude_terms : List Str :=
  ["Zeitarbeit".toList, "Leiharbeit".toList, "Arbeitnehmerüberlassung".toList,
   "Personaldienstleister".toList, "Personalleasing".toList]

/-- The cfg dictionary built at the top of main from the environment. -/
def buildConfig (env : Str → Option Str) : Config where
  ADZUNA_APP_ID := getenv env "ADZUNA_APP_ID".toList none
  ADZUNA_APP_KEY := getenv env "ADZUNA_APP_KEY".toList none
  HOME_CITY := (getenv env "HOME_CITY".toList (some "Lauffen am Neckar".toList)).getD []
  EXCLUDE_CITY := (getenv env "EXCLUDE_CITY".toList (some "Stuttgart".toList)).getD []
  RADIUS_KM := parse_int_flexible (getenv env "RADIUS_KM".toList (some "30".toList)) 30
  SALARY_MIN_YEAR :=
    parse_int_flexible (getenv env "SALARY_MIN_YEAR".toList (some "54000".toList)) 54000
  KEYWORDS := parse_list_semicolons (getenv env "KEYWORDS".toList none) default_keywords
  EXCLUDE_TERMS :=
    parse_list_semicolons (getenv env "EXCLUDE_TERMS".toList none) default_exclude_terms
  ADZUNA_MAX_PAGES := parse_int_flexible (getenv env "ADZUNA_MAX_PAGES".toList (some "2".toList)) 2
  RESULTS_PER_PAGE :=
    parse_int_flexible (getenv env "RESULTS_PER_PAGE".toList (some "50".toList)) 50

/-- Outcome of one fetch_adzuna_page call: the results array of the
response, or a raised request error. -/
inductive FetchResult where
  | ok (results : List Raw)
  | fail
deriving DecidableEq, Repr

/-- The mutable fetch state of main: the retained (keyword, raw record)
pairs in order, and the set of dedup keys seen so far. -/
structure FetchSt where
  all_raw : List (Str × Raw)
  seen_ids : List (Option Str)
deriving DecidableEq, Repr

/-- The dedup key of line 241: r.get("id") or r.get("redirect_url"). -/
def dedupKey (r : Raw) : Option Str :=
  pyOr r.id r.redirect_url

/-- The inner record loop of main (lines 240-246): skip seen dedup keys,
otherwise retain the pair and bump the keyword counter. -/
def procResults (kw : Str) : List Raw → FetchSt → ℕ → FetchSt × ℕ
  | [], st, cnt => (st, cnt)
  | r :: rest, st, cnt =>
    let rid := dedupKey r
    if rid ∈ st.seen_ids then procResults kw rest st cnt
    else procResults kw rest ⟨st.all_raw ++ [(kw, r)], rid :: st.seen_ids⟩ (cnt + 1)

/-- The page loop of main for one keyword: stop on a request failure or
an empty results array, else process the page and continue. -/
def procPages (resp : Str → ℕ → FetchResult) (kw : Str) :
    List ℕ → FetchSt → ℕ → FetchSt × ℕ
  | [], st, cnt => (st, cnt)
  | p :: ps, st, cnt =>
    match resp kw p with
    | .fail => (st, cnt)
    | .ok [] => (st, cnt)
    | .ok (r :: rs) =>
      let next := procResults kw (r :: rs) st cnt
      procPages resp kw ps next.1 next.2

/-- Python dict insertion order semantics for per_keyword_count:
overwrite in place when the key exists, else append. -/
def dictInsert (k : Str) (v : ℕ) : List (Str × ℕ) → List (Str × ℕ)
  | [] => [(k, v)]
  | (k0, v0) :: rest =>
    if k0 = k then (k0, v) :: rest else (k0, v0) :: dictInsert k v rest

/-- The keyword loop of main: strip each keyword, skip blank ones, run
the page loop over range(1, ADZUNA_MAX_PAGES + 1) with a fresh counter,
and record the counter in per_keyword_count. -/
def procKeywords (resp : Str → ℕ → FetchResult) (maxPages : ℕ) :
    List Str → FetchSt → List (Str × ℕ) → FetchSt × List (Str × ℕ)
  | [], st, pkc => (st, pkc)
  | kw0 :: rest, st, pkc =>
    let kw := stripStr kw0
    if kw.isEmpty then procKeywords resp maxPages rest st pkc
    else
      let res := procPages resp kw (List.range' 1 maxPages) st 0
      procKeywords resp maxPages rest res.1 (dictInsert kw res.2 pkc)

/-- The classification loop of main (lines 250-260): build each job,
decide exclusion, tag the keyword (and the reason when excluded), and
append to kept or excluded; exceptions abort the run. -/
def classify (tenv : TimeEnv) (cfg : Config) :
    List (Str × Raw) → Except PyErr (List Job × List Job)
  | [] => .ok ([], [])
  | (kw, raw) :: rest =>
    let job := build_job_obj tenv raw cfg.SALARY_MIN_YEAR
    match should_exclude job cfg with
    | .error e => .error e
    | .ok (ex, reason) =>
      match classify tenv cfg rest with
      | .error e => .error e
      | .ok (kept, excluded) =>
        if ex then .ok (kept, ({ job with keyword := kw, exclude_reason := reason }) :: excluded)
        else .ok (({ job with keyword := kw }) :: kept, excluded)

/-- The counts object of the JSON output. -/
structure Counts where
  fetched_total : ℕ
  kept : ℕ
  excluded : ℕ
  per_keyword : List (Str × ℕ)
deriving DecidableEq, Repr

/-- The JSON output document (lines 267-283); the wall-clock timestamp
generated_at_utc and the constant sources list are not modelled. -/
structure Output where
  home_city : Str
  exclude_city : Str
  radius_km : ℕ
  salary_min_year : ℕ
  keywords : List Str
  exclude_terms : List Str
  counts : Counts
  jobs : List Job
deriving DecidableEq, Repr

/-- Assembly of the output document after the in-place sort of kept. -/
def assembleOutput (cfg : Config) (all_raw : List (Str × Raw)) (pkc : List (Str × ℕ))
    (kept excluded : List Job) : Output :=
  let keptS := sortKept kept
  { home_city := cfg.HOME_CITY
    exclude_city := cfg.EXCLUDE_CITY
    radius_km := cfg.RADIUS_KM
    salary_min_year := cfg.SALARY_MIN_YEAR
    keywords := cfg.KEYWORDS
    exclude_terms := cfg.EXCLUDE_TERMS
    counts :=
      { fetched_total := all_raw.length
        kept := keptS.length
        excluded := excluded.length
        per_keyword := pkc }
    jobs := keptS }

/-- main, as a function of the process environment, the time library
environment, and the provider responses (keyword and page number to
fetch outcome): credentials check, fetch loop, classification, sort,
output assembly.  File writes and HTML rendering are outside the model;
the returned document is what gets serialized. -/
def runMain (env : Str → Option Str) (tenv : TimeEnv)
    (resp : Str → ℕ → FetchResult) : Except PyErr Output :=
  let cfg := buildConfig env
  if !(pyTruthy cfg.ADZUNA_APP_ID) || !(pyTruthy cfg.ADZUNA_APP_KEY) then
    .error .runtimeMissingCredentials
  else
    let fetched := procKeywords resp cfg.ADZUNA_MAX_PAGES cfg.KEYWORDS ⟨[], []⟩ []
    match classify tenv cfg fetched.1.all_raw with
    | .error e => .error e
    | .ok (kept, excluded) =>
      .ok (assembleOutput cfg fetched.1.all_raw fetched.2 kept excluded)

/-- The sequence of raw records main examines for one keyword: the
concatenation of the fetched pages up to the first failing or empty
page.  This is independent of the dedup state, which the page loop
never consults for control flow. -/
def resultsStream (resp : Str → ℕ → FetchResult) (kw : Str) : List ℕ → List Raw
  | [] => []
  | p :: ps =>
    match resp kw p with
    | .fail => []
    | .ok [] => []
    | .ok (r :: rs) => (r :: rs) ++ resultsStream resp kw ps

/-- The full sequence of (keyword, raw record) pairs main examines in
one run, across all keywords in order. -/
def visitStream (resp : Str → ℕ → FetchResult) (maxPages : ℕ) : List Str → List (Str × Raw)
  | [] => []
  | kw0 :: rest =>
    let kw := stripStr kw0
    if kw.isEmpty then visitStream resp maxPages rest
    else ((resultsStream resp kw (List.range' 1 maxPages)).map fun r => (kw, r))
      ++ visitStream resp maxPages rest

/-- First-occurrence filter, following the claim wording: of any two
records with the same dedup key, keep only the first encountered. -/
def keepFirstByKey (seen : List (Option Str)) : List (Str × Raw) → List (Str × Raw)
  | [] => []
  | (kw, r) :: rest =>
    let k := dedupKey r
    if k ∈ seen then keepFirstByKey seen rest
    else (kw, r) :: keepFirstByKey (k :: seen) rest

/-- The spec-level fold underlying the fetch loop: process a stream of
(keyword, raw) pairs against the dedup state, retaining first
occurrences only.  procResults is this fold restricted to one keyword
and one page of results. -/
def dedupRun (st : FetchSt) : List (Str × Raw) → FetchSt
  | [] => st
  | (kw, r) :: rest =>
    let k := dedupKey r
    if k ∈ st.seen_ids then dedupRun st rest
    else dedupRun ⟨st.all_raw ++ [(kw, r)], k :: st.seen_ids⟩ rest

/-- Sum of the per-keyword hit counts of the output. -/
def pkcSum (d : List (Str × ℕ)) : ℕ :=
  (d.map Prod.snd).sum

/-- The keyword list as the fetch loop effectively uses it: stripped,
with blank entries dropped. -/
def cleanKeywords (kws : List Str) : List Str :=
  (kws.map stripStr).filter fun k => !k.isEmpty

/-- Salary adequacy exactly as claim C1 words it: unknown when both
salary bounds are absent; otherwise the maximum bound (or the minimum
when the maximum is absent) is compared against the configured minimum
annual salary, greater-or-equal giving true and anything else false; a
failed numeric conversion of the chosen bound gives unknown. -/
def salary_adequacy_spec (smin smax : Option NumVal) (min_year : ℕ) : Option Bool :=
  if smin = none ∧ smax = none then none
  else
    match (if smax.isSome then smax else smin) with
    | none => none
    | some v =>
      match v with
      | none => none
      | some q => some (decide (q ≥ (min_year : ℚ)))

/-- The remote-term set exactly as the specification lists it: the last
entry is partial-remote where the code literal has teil-remote.  The two
sets induce the same predicate because each of these two terms contains
remote as a substring. -/
def remote_terms_spec : List Str :=
  ["remote".toList, "homeoffice".toList, "home office".toList,
   "hybrid".toList, "partial-remote".toList]

/-- The remote heuristic exactly as claim C6 words it: the
case-insensitive concatenation (with no separator) of the record title
and description contains one of the specification terms. -/
def is_remote_spec (raw : Raw) : Bool :=
  remote_terms_spec.any fun t =>
    containsSub (casefoldStr (normalize raw.title ++ normalize raw.description))
      (casefoldStr t)

/-- The ordering of the kept list exactly as claim C3 words it:
strictly greater rank tier first; within a tier, strictly smaller
case-insensitive company first; within a company, case-insensitive
title not decreasing. -/
def specSortOrder (a b : Job) : Prop :=
  rank_job b < rank_job a ∨
    (rank_job a = rank_job b ∧
      (strLt (casefoldStr a.company) (casefoldStr b.company) = true ∨
        (casefoldStr a.company = casefoldStr b.company ∧
          strLt (casefoldStr b.title) (casefoldStr a.title) = false)))

/-- Library environment used for the concrete inputs below: timestamp
parsing always fails (the strings fed to it in the witnesses are not
ISO-8601, on which datetime.fromisoformat raises), and no Berlin
timezone is available. -/
def tenv0 : TimeEnv where
  fromiso := fun _ => none
  hasBerlinTz := false
  fmtBerlin := fun _ => none
  fmtUTC := fun _ => []

/-- A raw record with every field absent. -/
def raw_empty : Raw where
  id := none
  title := none
  description := none
  created := none
  redirect_url := none
  company := none
  location := none
  contract_type := none
  contract_time := none
  category := none
  salary_min := none
  salary_max := none
  salary_is_predicted := none

/-- A raw record whose creation timestamp is present, non-blank and not
parseable as ISO-8601. -/
def raw_badtime : Raw :=
  { raw_empty with created := some "notadate".toList }

/-- A raw record whose title ends in homeoffic and whose description
starts with e: their plain concatenation contains homeoffice, their
space-joined concatenation does not. -/
def raw_homeoffic : Raw :=
  { raw_empty with title := some "homeoffic".toList, description := some "e".toList }

/-- A raw record located in the excluded city and containing an
exclusion term in its description. -/
def raw_city_term : Raw :=
  { raw_empty with
      id := some "j1".toList
      title := some "Mediengestalter".toList
      description := some "Zeitarbeit in Stuttgart".toList
      redirect_url := some "u1".toList
      company := some ⟨some "ACME GmbH".toList⟩
      location := some ⟨some "Stuttgart Mitte".toList, some ["Stuttgart".toList]⟩ }

/-- A keepable raw record with no salary information (rank tier 1). -/
def raw_nosalary : Raw :=
  { raw_empty with
      id := some "a".toList
      title := some "Grafik".toList
      description := some "Designaufgaben".toList }

/-- The same record under a different identifier (equal sort key). -/
def raw_nosalary2 : Raw :=
  { raw_nosalary with id := some "c".toList }

/-- A keepable raw record whose maximum salary is below the default
minimum of 54000 (rank tier 0). -/
def raw_lowsalary : Raw :=
  { raw_empty with
      id := some "b".toList
      title := some "Layout".toList
      description := some "Printmedien".toList
      salary_max := some (some (40000 : ℚ)) }

/-- The effective configuration of a run with no environment at all
(credentials absent, every other parameter at its default). -/
def cfg_default : Config :=
  buildConfig fun _ => none

/-- Jobs built from the concrete records under the default minimum
salary. -/
def job_tier1 : Job :=
  build_job_obj tenv0 raw_nosalary 54000

/-- Same sort key as job_tier1, different identifier. -/
def job_tier1b : Job :=
  build_job_obj tenv0 raw_nosalary2 54000

/-- A job of rank tier 0. -/
def job_tier0 : Job :=
  build_job_obj tenv0 raw_lowsalary 54000

/-- An environment with credentials and the single keyword
Webdesigner. -/
def env_c4 : Str → Option Str := fun name =>
  if name = "ADZUNA_APP_ID".toList then some "id".toList
  else if name = "ADZUNA_APP_KEY".toList then some "key".toList
  else if name = "KEYWORDS".toList then some "Webdesigner".toList
  else none

/-- Provider responses delivering the two rank-tier records on the
first page and nothing afterwards. -/
def resp_c4 : Str → ℕ → FetchResult := fun _ p =>
  if p = 1 then .ok [raw_nosalary, raw_lowsalary] else .ok []

/-- An environment with credentials and a duplicated keyword list. -/
def env_c10 : Str → Option Str := fun name =>
  if name = "ADZUNA_APP_ID".toList then some "id".toList
  else if name = "ADZUNA_APP_KEY".toList then some "key".toList
  else if name = "KEYWORDS".toList then some "Webdesigner;Webdesigner".toList
  else none

/-- Provider responses delivering one record on the first page and
nothing afterwards. -/
def resp_c10 : Str → ℕ → FetchResult := fun _ p =>
  if p = 1 then .ok [raw_nosalary] else .ok []

/-- The output document of the run with environment env_c4, no Berlin
timezone, and empty responses: nothing fetched, nothing kept. -/
def out_c9 : Output where
  home_city := "Lauffen am Neckar".toList
  exclude_city := "Stuttgart".toList
  radius_km := 30
  salary_min_year := 54000
  keywords := ["Webdesigner".toList]
  exclude_terms := default_exclude_terms
  counts :=
    { fetched_total := 0
      kept := 0
      excluded := 0
      per_keyword := [("Webdesigner".toList, 0)] }
  jobs := []

theorem char_eq_of_toNat_eq {a b : Char} (h : a.toNat = b.toNat) : a = b := by
  have h1 : Char.ofNat a.toNat = Char.ofNat b.toNat := by rw [h]
  rwa [Char.ofNat_toNat, Char.ofNat_toNat] at h1

theorem containsSub_iff (hay needle : Str) :
    containsSub hay needle = true ↔ needle <:+: hay := by
  induction hay with
  | nil =>
    simp [containsSub, List.isPrefixOf_iff_prefix, List.infix_nil]
  | cons a t ih =>
    rw [containsSub]
    simp [List.isPrefixOf_iff_prefix, List.infix_cons_iff, ih]

theorem containsSub_of_containsSub_of_sub {s big small : Str}
    (h : containsSub s big = true) (hs : containsSub big small = true) :
    containsSub s small = true := by
  rw [containsSub_iff] at h hs ⊢
  exact hs.trans h

theorem strLt_asymm : ∀ a b : Str, strLt a b = true → strLt b a = false
  | [], [], h => by simp [strLt] at h
  | [], _ :: _, _ => by simp [strLt]
  | _ :: _, [], h => by simp [strLt] at h
  | a :: as, b :: bs, h => by
    rw [strLt] at h ⊢
    by_cases hab : a.toNat < b.toNat
    · have hba : ¬ b.toNat < a.toNat := by omega
      simp [hab, hba]
    · by_cases hba : b.toNat < a.toNat
      · simp [hab, hba] at h
      · simp [hab, hba] at h ⊢
        exact strLt_asymm as bs h

theorem strLt_eq_of_not : ∀ a b : Str, strLt a b = false → strLt b a = false → a = b
  | [], [], _, _ => rfl
  | [], _ :: _, h, _ => by simp [strLt] at h
  | _ :: _, [], _, h => by simp [strLt] at h
  | a :: as, b :: bs, h, h' => by
    rw [strLt] at h h'
    by_cases hab : a.toNat < b.toNat
    · simp [hab] at h
    · by_cases hba : b.toNat < a.toNat
      · simp [hab, hba] at h'
      · simp [hab, hba] at h h'
        have hv : a = b := char_eq_of_toNat_eq (by omega)
        rw [hv, strLt_eq_of_not as bs h h']

theorem strLt_trans : ∀ a b c : Str, strLt a b = true → strLt b c = true → strLt a c = true
  | [], [], _, h, _ => by simp [strLt] at h
  | [], _ :: _, [], _, h => by simp [strLt] at h
  | [], _ :: _, _ :: _, _, _ => by simp [strLt]
  | _ :: _, [], _, h, _ => by simp [strLt] at h
  | _ :: _, _ :: _, [], _, h => by simp [strLt] at h
  | a :: as, b :: bs, c :: cs, h, h' => by
    rw [strLt] at h h' ⊢
    by_cases hab : a.toNat < b.toNat <;> by_cases hbc : b.toNat < c.toNat
    · have hac : a.toNat < c.toNat := by omega
      simp [hac]
    · by_cases hcb : c.toNat < b.toNat
      · simp [hab, hbc, hcb] at h'
      · have hv : b = c := char_eq_of_toNat_eq (by omega)
        subst hv
        simp [hab]
    · by_cases hba : b.toNat < a.toNat
      · simp [hab, hba] at h
      · have hv : a = b := char_eq_of_toNat_eq (by omega)
        subst hv
        simp [hbc]
    · by_cases hba : b.toNat < a.toNat
      · simp [hab, hba] at h
      · have hv : a = b := char_eq_of_toNat_eq (by omega)
        subst hv
        by_cases hcb : c.toNat < a.toNat
        · simp [hbc, hcb] at h'
        · have hv' : a = c := char_eq_of_toNat_eq (by omega)
          subst hv'
          simp [hbc] at h h' ⊢
          exact strLt_trans as bs cs h h'

theorem strLt_irrefl (a : Str) : strLt a a = false := by
  cases h : strLt a a
  · rfl
  · have h2 := strLt_asymm a a h
    simp [h] at h2

theorem strLt_false_trans {a b c : Str} (h1 : strLt b a = false)
    (h2 : strLt c b = false) : strLt c a = false := by
  cases h3 : strLt c a
  · rfl
  · exfalso
    cases hab : strLt a b with
    | true =>
      have := strLt_trans c a b h3 hab
      simp [this] at h2
    | false =>
      have hv : a = b := strLt_eq_of_not a b hab h1
      subst hv
      simp [h3] at h2

theorem keyLE_iff {r1 r2 : ℤ} {c1 c2 t1 t2 : Str} :
    keyLE (r1, c1, t1) (r2, c2, t2) = true ↔
      r1 < r2 ∨ (r1 = r2 ∧ (strLt c1 c2 = true ∨
        (c1 = c2 ∧ strLt t2 t1 = false))) := by
  simp only [keyLE]
  by_cases h1 : r1 < r2
  · simp [h1]
  · by_cases h2 : r2 < r1
    · simp [h1, h2]
      omega
    · have hr : r1 = r2 := by omega
      subst hr
      simp only [if_neg h1, if_neg h2]
      by_cases hc1 : strLt c1 c2
      · simp [hc1]
      · by_cases hc2 : strLt c2 c1
        · simp only [if_neg hc1, if_pos hc2]
          constructor
          · intro h
            cases h
          · rintro (h | ⟨-, (h | ⟨rfl, -⟩)⟩)
            · omega
            · simp [hc1] at h
            · simp [strLt_irrefl] at hc2
        · have hc : c1 = c2 := strLt_eq_of_not c1 c2 (by simpa using hc1) (by simpa using hc2)
          subst hc
          simp [hc1, hc2]

theorem keyLE_total (k1 k2 : ℤ × Str × Str) :
    keyLE k1 k2 = true ∨ keyLE k2 k1 = true := by
  obtain ⟨r1, c1, t1⟩ := k1
  obtain ⟨r2, c2, t2⟩ := k2
  rw [keyLE_iff, keyLE_iff]
  by_cases h1 : r1 < r2
  · left; exact Or.inl h1
  · by_cases h2 : r2 < r1
    · right; exact Or.inl h2
    · have hr : r1 = r2 := by omega
      subst hr
      by_cases hc1 : strLt c1 c2
      · left; exact Or.inr ⟨rfl, Or.inl hc1⟩
      · by_cases hc2 : strLt c2 c1
        · right; exact Or.inr ⟨rfl, Or.inl hc2⟩
        · have hc : c1 = c2 := strLt_eq_of_not c1 c2 (by simpa using hc1) (by simpa using hc2)
          subst hc
          by_cases ht : strLt t2 t1
          · right
            exact Or.inr ⟨rfl, Or.inr ⟨rfl, strLt_asymm t2 t1 ht⟩⟩
          · left
            exact Or.inr ⟨rfl, Or.inr ⟨rfl, by simpa using ht⟩⟩

theorem keyLE_trans (k1 k2 k3 : ℤ × Str × Str) (h12 : keyLE k1 k2 = true)
    (h23 : keyLE k2 k3 = true) : keyLE k1 k3 = true := by
  obtain ⟨r1, c1, t1⟩ := k1
  obtain ⟨r2, c2, t2⟩ := k2
  obtain ⟨r3, c3, t3⟩ := k3
  rw [keyLE_iff] at h12 h23 ⊢
  rcases h12 with h12 | ⟨hr12, h12⟩
  · rcases h23 with h23 | ⟨hr23, -⟩
    · exact Or.inl (by omega)
    · exact Or.inl (by omega)
  · rcases h23 with h23 | ⟨hr23, h23⟩
    · exact Or.inl (by omega)
    · refine Or.inr ⟨by omega, ?_⟩
      rcases h12 with h12 | ⟨hc12, ht12⟩
      · rcases h23 with h23 | ⟨hc23, -⟩
        · exact Or.inl (strLt_trans c1 c2 c3 h12 h23)
        · exact Or.inl (hc23 ▸ h12)
      · rcases h23 with h23 | ⟨hc23, ht23⟩
        · exact Or.inl (hc12 ▸ h23)
        · exact Or.inr ⟨hc12.trans hc23, strLt_false_trans ht12 ht23⟩

/-- C1 (confirmed).  For every raw record and configured minimum annual
salary M, the meets_salary field of the built job is the salary-adequacy
tri-state exactly as the claim words it: unknown (none) when both
bounds are absent, otherwise the comparison of salary_max (or
salary_min when salary_max is absent) against M, true iff that bound is
greater-or-equal, with a failed numeric conversion giving unknown. -/
theorem c1_salary_adequacy (tenv : TimeEnv) (raw : Raw) (M : ℕ) :
    (build_job_obj tenv raw M).meets_salary =
      salary_adequacy_spec raw.salary_min raw.salary_max M := by
  have h : (build_job_obj tenv raw M).meets_salary
      = meets_min_salary raw.salary_min raw.salary_max M := rfl
  rw [h]
  rcases hmin : raw.salary_min with _ | v <;> rcases hmax : raw.salary_max with _ | w
  · rfl
  · cases w <;> rfl
  · cases v <;> rfl
  · cases w <;> rfl

/-- C2 (code bug).  A record matching both the configured exclusion
city (in its location display name) and a configured exclusion term (in
its description) should, per the claim, be excluded with reason
excluded_city.  Instead should_exclude hands the normalized job to
job_city_mentions_excluded, whose loc.get lookup on the location string
raises AttributeError, aborting the run: evaluating the filter on such
a record yields the exception, not an exclusion. -/
theorem c2_city_rule_crashes :
    should_exclude (build_job_obj tenv0 raw_city_term cfg_default.SALARY_MIN_YEAR) cfg_default
      = .error .attributeError := by rfl

/-- The code term set (with teil-remote) and the specification term set
(with partial-remote) induce the same search predicate on any text,
because both extra terms contain remote as a substring. -/
theorem remote_terms_equiv (s : Str) :
    (remote_terms.any fun t => containsSub s (casefoldStr t)) =
      (remote_terms_spec.any fun t => containsSub s (casefoldStr t)) := by
  have h1 : containsSub (casefoldStr ("teil-remote".toList))
      (casefoldStr ("remote".toList)) = true := by decide
  have h2 : containsSub (casefoldStr ("partial-remote".toList))
      (casefoldStr ("remote".toList)) = true := by decide
  simp only [remote_terms, remote_terms_spec, List.any_cons, List.any_nil, Bool.or_false]
  cases hr : containsSub s (casefoldStr ("remote".toList))
  · have ht : containsSub s (casefoldStr ("teil-remote".toList)) = false := by
      cases h : containsSub s (casefoldStr ("teil-remote".toList))
      · rfl
      · have hct := containsSub_of_containsSub_of_sub h h1
        rw [hr] at hct
        exact Bool.noConfusion hct
    have hp : containsSub s (casefoldStr ("partial-remote".toList)) = false := by
      cases h : containsSub s (casefoldStr ("partial-remote".toList))
      · rfl
      · have hct := containsSub_of_containsSub_of_sub h h2
        rw [hr] at hct
        exact Bool.noConfusion hct
    rw [ht, hp]
  · simp

/-- C6 counterexample.  For the record with title homeoffic and
description e, the plain concatenation of title and description
contains homeoffice, so the claim predicts a true remote flag; the code
joins the two with a space and computes false. -/
theorem c6_counterexample :
    is_remote_spec raw_homeoffic = true ∧
    (build_job_obj tenv0 raw_homeoffic 54000).is_remote_guess = false := by decide

/-- C6 (corrected).  The remote flag is true iff the case-insensitive
concatenation of the trimmed title, a single space, and the trimmed
description contains one of the terms remote, homeoffice, home office,
hybrid, partial-remote as a substring. -/
theorem c6_remote_heuristic (tenv : TimeEnv) (raw : Raw) (M : ℕ) :
    (build_job_obj tenv raw M).is_remote_guess =
      (remote_terms_spec.any fun t =>
        containsSub (casefoldStr (normalize raw.title ++ ' ' :: normalize raw.description))
          (casefoldStr t)) := by
  have h : (build_job_obj tenv raw M).is_remote_guess =
      contains_any (normalize raw.title ++ ' ' :: normalize raw.description) remote_terms := rfl
  rw [h, contains_any]
  have hne : (normalize raw.title ++ ' ' :: normalize raw.description).isEmpty = false := by
    cases h2 : normalize raw.title <;> simp [h2]
  rw [hne]
  simp only [Bool.false_eq_true, if_false]
  exact remote_terms_equiv _

/-- C7 counterexample.  The claim says the identifier and the localized
creation-time display are never null, the latter being empty on a parse
failure.  The code leaves the identifier of a record without id as
None, and leaves created_local as None (not the empty string) when the
non-blank timestamp fails to parse. -/
theorem c7_counterexample :
    (build_job_obj tenv0 raw_empty 54000).id = none ∧
    (build_job_obj tenv0 raw_badtime 54000).created = "notadate".toList ∧
    (build_job_obj tenv0 raw_badtime 54000).created_local = none := by decide

/-- C7 (corrected).  Every string-valued field other than category,
salary bounds, redirect URL and the identifier is the trim of its
source value, with absent source values mapped to the empty string; the
identifier is passed through unchanged (null when absent), and the
localized creation-time display is null (not empty) when the timestamp
is absent/blank or when parsing it fails. -/
theorem c7_normalized_fields (tenv : TimeEnv) (raw : Raw) (M : ℕ) :
    (build_job_obj tenv raw M).title = stripStr (raw.title.getD []) ∧
    (build_job_obj tenv raw M).company
        = stripStr ((raw.company.bind RawCompany.display_name).getD []) ∧
    (build_job_obj tenv raw M).location
        = stripStr ((raw.location.bind RawLocation.display_name).getD []) ∧
    (build_job_obj tenv raw M).created = stripStr (raw.created.getD []) ∧
    (build_job_obj tenv raw M).description = stripStr (raw.description.getD []) ∧
    (build_job_obj tenv raw M).contract_type = stripStr (raw.contract_type.getD []) ∧
    (build_job_obj tenv raw M).contract_time = stripStr (raw.contract_time.getD []) ∧
    (build_job_obj tenv raw M).salary_is_predicted
        = stripStr (raw.salary_is_predicted.getD []) ∧
    (build_job_obj tenv raw M).id = raw.id ∧
    (normalize raw.created = [] → (build_job_obj tenv raw M).created_local = none) ∧
    (tenv.fromiso (replaceZ (normalize raw.created)) = none →
      (build_job_obj tenv raw M).created_local = none) := by
  refine ⟨rfl, rfl, rfl, rfl, rfl, rfl, rfl, rfl, rfl, ?_, ?_⟩
  · intro h
    simp [build_job_obj, h]
  · intro h
    simp [build_job_obj, h]

/-- Witness for C7: at the record with the unparseable timestamp, the
parse-failure clause of the theorem applies and the localized display
is null. -/
theorem c7_normalized_fields_witness :
    (build_job_obj tenv0 raw_badtime 54000).created_local = none :=
  (c7_normalized_fields tenv0 raw_badtime 54000).2.2.2.2.2.2.2.2.2.2 (by decide)

/-- keyLE is reflexive. -/
theorem keyLE_refl (k : ℤ × Str × Str) : keyLE k k = true := by
  obtain ⟨r, c, t⟩ := k
  rw [keyLE_iff]
  exact Or.inr ⟨rfl, Or.inr ⟨rfl, strLt_irrefl t⟩⟩

/-- The Boolean key comparison coincides with the claim-side ordering:
strictly greater rank tier first, then case-insensitive company, then
case-insensitive title. -/
theorem jobLE_iff_spec (a b : Job) : jobLE a b = true ↔ specSortOrder a b := by
  show keyLE (sortKey a) (sortKey b) = true ↔ _
  simp only [sortKey, keyLE_iff, specSortOrder]
  have h1 : (-(rank_job a : ℤ) < -(rank_job b : ℤ)) ↔ rank_job b < rank_job a := by omega
  have h2 : (-(rank_job a : ℤ) = -(rank_job b : ℤ)) ↔ rank_job a = rank_job b := by omega
  rw [h1, h2]

/-- The sorted kept list is pairwise ordered by the key comparison. -/
theorem sortKept_sorted (kept : List Job) :
    (sortKept kept).Sorted (fun a b => jobLE a b = true) := by
  letI : IsTotal Job (fun a b => jobLE a b = true) :=
    ⟨fun a b => keyLE_total (sortKey a) (sortKey b)⟩
  letI : IsTrans Job (fun a b => jobLE a b = true) :=
    ⟨fun a b c => keyLE_trans (sortKey a) (sortKey b) (sortKey c)⟩
  exact List.sorted_insertionSort _ kept

/-- C3 (confirmed).  The final kept list is a permutation of the kept
records, pairwise ordered by descending rank tier, then ascending
case-insensitive company, then ascending case-insensitive title, and
any two records whose three sort keys agree keep their relative input
order (stability of the sort). -/
theorem c3_final_ordering (kept : List Job) :
    List.Perm (sortKept kept) kept ∧
    (sortKept kept).Sorted specSortOrder ∧
    (∀ a b, sortKey a = sortKey b → List.Sublist [a, b] kept →
      List.Sublist [a, b] (sortKept kept)) := by
  refine ⟨List.perm_insertionSort _ kept, ?_, ?_⟩
  · exact List.Pairwise.imp (fun h => (jobLE_iff_spec _ _).mp h) (sortKept_sorted kept)
  · intro a b hkey hsub
    have hab : jobLE a b = true := by
      rw [jobLE, hkey]
      exact keyLE_refl _
    show List.Sublist [a, b] (List.insertionSort (fun a b => jobLE a b = true) kept)
    exact List.pair_sublist_insertionSort hab hsub

/-- Witness for C3: two records with equal sort keys but different
identifiers stay in input order in the sorted list. -/
theorem c3_final_ordering_witness :
    List.Sublist [job_tier1, job_tier1b] (sortKept [job_tier1, job_tier1b]) :=
  (c3_final_ordering [job_tier1, job_tier1b]).2.2 job_tier1 job_tier1b (by decide)
    (List.Sublist.refl _)

/-- C4 counterexample.  In the run over env_c4 and resp_c4 the output
job list carries rank tiers [1, 0]: a rank-tier-1 record precedes a
rank-tier-0 record in the sorted kept list, contradicting the claim
that no tier-1 record appears before a tier-0 record (the sort is by
DESCENDING tier). -/
theorem c4_counterexample :
    (runMain env_c4 tenv0 resp_c4).toOption.map (fun o => o.jobs.map rank_job)
      = some [1, 0] := by decide

/-- C4 (corrected).  In the sorted kept list no rank-tier-0 record
appears before a rank-tier-1 record, and ties within a tier are ordered
by case-insensitive company, then case-insensitive title. -/
theorem c4_tier_order (kept : List Job) (i j : Fin (sortKept kept).length)
    (hij : i < j) :
    ¬(rank_job ((sortKept kept).get i) = 0 ∧ rank_job ((sortKept kept).get j) = 1) ∧
    (rank_job ((sortKept kept).get i) = rank_job ((sortKept kept).get j) →
      strLt (casefoldStr ((sortKept kept).get j).company)
          (casefoldStr ((sortKept kept).get i).company) = false ∧
      (casefoldStr ((sortKept kept).get i).company
          = casefoldStr ((sortKept kept).get j).company →
        strLt (casefoldStr ((sortKept kept).get j).title)
            (casefoldStr ((sortKept kept).get i).title) = false)) := by
  have hrel := List.Sorted.rel_get_of_lt (sortKept_sorted kept) hij
  rw [jobLE_iff_spec] at hrel
  unfold specSortOrder at hrel
  constructor
  · rintro ⟨h0, h1⟩
    rcases hrel with h | ⟨he, -⟩
    · omega
    · omega
  · intro he
    rcases hrel with h | ⟨-, hstr⟩
    · omega
    · rcases hstr with hlt | ⟨hc, ht⟩
      · refine ⟨strLt_asymm _ _ hlt, ?_⟩
        intro hceq
        rw [hceq, strLt_irrefl] at hlt
        exact Bool.noConfusion hlt
      · refine ⟨?_, fun _ => ht⟩
        rw [hc]
        exact strLt_irrefl _

/-- Witness for C4: at the concrete two-record kept list the first
sorted entry is not a tier-0 record followed by a tier-1 record. -/
theorem c4_tier_order_witness :
    ¬(rank_job ((sortKept [job_tier1, job_tier0]).get ⟨0, by decide⟩) = 0 ∧
      rank_job ((sortKept [job_tier1, job_tier0]).get ⟨1, by decide⟩) = 1) :=
  (c4_tier_order [job_tier1, job_tier0] ⟨0, by decide⟩ ⟨1, by decide⟩ (by decide)).1

/-- Processing a concatenation of result lists is processing them in
sequence. -/
theorem procResults_append (kw : Str) (rs1 rs2 : List Raw) (st : FetchSt) (cnt : ℕ) :
    procResults kw (rs1 ++ rs2) st cnt
      = procResults kw rs2 (procResults kw rs1 st cnt).1 (procResults kw rs1 st cnt).2 := by
  induction rs1 generalizing st cnt with
  | nil => rfl
  | cons r rest ih =>
    simp only [List.cons_append, procResults]
    by_cases h : dedupKey r ∈ st.seen_ids
    · simp only [if_pos h]
      exact ih st cnt
    · simp only [if_neg h]
      exact ih _ _

/-- The page loop equals one pass of the record loop over the stream of
fetched records, because pagination control flow never consults the
dedup state. -/
theorem procPages_eq (resp : Str → ℕ → FetchResult) (kw : Str) (ps : List ℕ)
    (st : FetchSt) (cnt : ℕ) :
    procPages resp kw ps st cnt = procResults kw (resultsStream resp kw ps) st cnt := by
  induction ps generalizing st cnt with
  | nil => rfl
  | cons p ps ih =>
    simp only [procPages, resultsStream]
    rcases h : resp kw p with rs | _
    · cases rs with
      | nil => simp [procResults]
      | cons r rest =>
        simp only []
        rw [procResults_append]
        exact ih _ _
    · simp [procResults]

/-- The record loop threads the same state as the spec-level dedup
fold over the keyword-tagged records. -/
theorem procResults_fst (kw : Str) (rs : List Raw) (st : FetchSt) (cnt : ℕ) :
    (procResults kw rs st cnt).1 = dedupRun st (rs.map fun r => (kw, r)) := by
  induction rs generalizing st cnt with
  | nil => rfl
  | cons r rest ih =>
    simp only [procResults, List.map_cons, dedupRun]
    by_cases h : dedupKey r ∈ st.seen_ids
    · simp only [if_pos h]
      exact ih _ _
    · simp only [if_neg h]
      exact ih _ _

/-- The dedup fold over a concatenation is the composition of folds. -/
theorem dedupRun_append (st : FetchSt) (l1 l2 : List (Str × Raw)) :
    dedupRun st (l1 ++ l2) = dedupRun (dedupRun st l1) l2 := by
  induction l1 generalizing st with
  | nil => rfl
  | cons p rest ih =>
    obtain ⟨kw, r⟩ := p
    simp only [List.cons_append, dedupRun]
    by_cases h : dedupKey r ∈ st.seen_ids
    · simp only [if_pos h]
      exact ih _
    · simp only [if_neg h]
      exact ih _

/-- The whole keyword loop threads the dedup fold over the full visit
stream of the run. -/
theorem procKeywords_fst (resp : Str → ℕ → FetchResult) (mp : ℕ) (kws : List Str)
    (st : FetchSt) (pkc : List (Str × ℕ)) :
    (procKeywords resp mp kws st pkc).1 = dedupRun st (visitStream resp mp kws) := by
  induction kws generalizing st pkc with
  | nil => rfl
  | cons kw0 rest ih =>
    simp only [procKeywords, visitStream]
    by_cases h : (stripStr kw0).isEmpty
    · simp only [if_pos h]
      exact ih _ _
    · simp only [if_neg h]
      rw [ih, dedupRun_append]
      congr 1
      rw [procPages_eq, procResults_fst]

/-- The retained list of the dedup fold is the first-occurrence filter
appended to the incoming list. -/
theorem dedupRun_all_raw (st : FetchSt) (l : List (Str × Raw)) :
    (dedupRun st l).all_raw = st.all_raw ++ keepFirstByKey st.seen_ids l := by
  induction l generalizing st with
  | nil => simp [dedupRun, keepFirstByKey]
  | cons p rest ih =>
    obtain ⟨kw, r⟩ := p
    simp only [dedupRun, keepFirstByKey]
    by_cases h : dedupKey r ∈ st.seen_ids
    · simp only [if_pos h]
      exact ih _
    · simp only [if_neg h]
      rw [ih]
      simp

/-- The first-occurrence filter yields pairwise distinct dedup keys,
none of which was seen before. -/
theorem keepFirst_keys_nodup (seen : List (Option Str)) (l : List (Str × Raw)) :
    ((keepFirstByKey seen l).map fun p => dedupKey p.2).Nodup ∧
      ∀ k ∈ (keepFirstByKey seen l).map fun p => dedupKey p.2, k ∉ seen := by
  induction l generalizing seen with
  | nil => simp [keepFirstByKey]
  | cons p rest ih =>
    obtain ⟨kw, r⟩ := p
    simp only [keepFirstByKey]
    by_cases h : dedupKey r ∈ seen
    · simp only [if_pos h]
      exact ih seen
    · simp only [if_neg h, List.map_cons]
      obtain ⟨ihn, ihs⟩ := ih (dedupKey r :: seen)
      constructor
      · refine List.Pairwise.cons ?_ ihn
        intro b hb
        have hbs := ihs b hb
        intro he
        exact hbs (he ▸ List.mem_cons_self _ _)
      · intro k hk
        rcases List.mem_cons.mp hk with hk1 | hk2
        · exact hk1 ▸ h
        · exact fun hs => ihs k hk2 (List.mem_cons_of_mem _ hs)

/-- Each run of the record loop advances the keyword hit counter by
exactly the number of records it retains. -/
theorem procResults_cnt (kw : Str) (rs : List Raw) (st : FetchSt) (cnt : ℕ) :
    (procResults kw rs st cnt).2 + st.all_raw.length
      = cnt + (procResults kw rs st cnt).1.all_raw.length := by
  induction rs generalizing st cnt with
  | nil => rfl
  | cons r rest ih =>
    simp only [procResults]
    by_cases h : dedupKey r ∈ st.seen_ids
    · simp only [if_pos h]
      exact ih st cnt
    · simp only [if_neg h]
      have hh := ih ⟨st.all_raw ++ [(kw, r)], dedupKey r :: st.seen_ids⟩ (cnt + 1)
      simp only [List.length_append, List.length_cons, List.length_nil] at hh ⊢
      omega

/-- Each keyword pass advances its hit counter by exactly the number of
records it retains into all_raw. -/
theorem procPages_cnt (resp : Str → ℕ → FetchResult) (kw : Str) (ps : List ℕ)
    (st : FetchSt) (cnt : ℕ) :
    (procPages resp kw ps st cnt).2 + st.all_raw.length
      = cnt + (procPages resp kw ps st cnt).1.all_raw.length := by
  rw [procPages_eq]
  exact procResults_cnt kw _ st cnt

/-- C5 (confirmed).  Across a whole run, the retained (keyword, raw
record) list is exactly the first-occurrence filter (by dedup key:
identifier if truthy, else redirect URL) of the stream of records the
run examines, so of any two records with an equal key only the first
encountered is retained and the later ones are skipped; the retained
keys are pairwise distinct; and every keyword pass advances its hit
counter by exactly the number of records it retains, so skipped records
never increment any counter. -/
theorem c5_dedup_first_only (resp : Str → ℕ → FetchResult) (maxPages : ℕ)
    (kws : List Str) :
    (procKeywords resp maxPages kws ⟨[], []⟩ []).1.all_raw
        = keepFirstByKey [] (visitStream resp maxPages kws) ∧
    ((procKeywords resp maxPages kws ⟨[], []⟩ []).1.all_raw.map
        fun p => dedupKey p.2).Nodup ∧
    (∀ kw pages st cnt,
      (procPages resp kw pages st cnt).2 + st.all_raw.length
        = cnt + (procPages resp kw pages st cnt).1.all_raw.length) := by
  have h1 : (procKeywords resp maxPages kws ⟨[], []⟩ []).1.all_raw
      = keepFirstByKey [] (visitStream resp maxPages kws) := by
    rw [procKeywords_fst, dedupRun_all_raw]
    rfl
  refine ⟨h1, ?_, fun kw pages st cnt => procPages_cnt resp kw pages st cnt⟩
  rw [h1]
  exact (keepFirst_keys_nodup [] _).1

/-- A non-default getenv result is a non-empty string. -/
theorem getenv_some_nonempty {env : Str → Option Str} {name : Str} {v : Str}
    (h : getenv env name none = some v) : v.isEmpty = false := by
  unfold getenv at h
  cases he : env name with
  | none => simp [he] at h
  | some w =>
    simp only [he] at h
    split at h
    · cases h
    · injection h with h2
      subst h2
      next hn =>
        cases w with
        | nil => exact absurd rfl hn
        | cons a t => rfl

/-- The city check can only raise AttributeError, never the credential
error. -/
theorem jcme_ne_creds (job : Job) (city : Str) :
    job_city_mentions_excluded job city ≠ .error .runtimeMissingCredentials := by
  intro hcon
  unfold job_city_mentions_excluded at hcon
  split at hcon
  · simp at hcon
  · split at hcon
    · simp at hcon
    · simp only [] at hcon
      split at hcon
      · simp at hcon
      · split at hcon
        · simp at hcon
        · simp at hcon

/-- should_exclude can only raise AttributeError, never the credential
error. -/
theorem should_exclude_ne_creds (job : Job) (cfg : Config) :
    should_exclude job cfg ≠ .error .runtimeMissingCredentials := by
  unfold should_exclude
  by_cases hc : cfg.EXCLUDE_CITY.isEmpty = true
  · simp only [hc, if_true]
    split <;> simp
  · simp only [hc, Bool.false_eq_true, if_false]
    cases h : job_city_mentions_excluded job cfg.EXCLUDE_CITY with
    | ok b =>
      cases b
      · simp only []
        split <;> simp
      · simp
    | error e =>
      have he := jcme_ne_creds job cfg.EXCLUDE_CITY
      rw [h] at he
      simp only []
      intro hcon
      injection hcon with hcon
      exact he (by rw [hcon])

/-- The classification loop can only raise AttributeError, never the
credential error. -/
theorem classify_ne_creds (tenv : TimeEnv) (cfg : Config) (l : List (Str × Raw)) :
    classify tenv cfg l ≠ .error .runtimeMissingCredentials := by
  induction l with
  | nil => simp [classify]
  | cons p rest ih =>
    obtain ⟨kw, raw⟩ := p
    simp only [classify]
    cases hse : should_exclude (build_job_obj tenv raw cfg.SALARY_MIN_YEAR) cfg with
    | error e =>
      have := should_exclude_ne_creds (build_job_obj tenv raw cfg.SALARY_MIN_YEAR) cfg
      rw [hse] at this
      simp only []
      intro hcon
      injection hcon with hcon
      exact this (by rw [hcon])
    | ok pr =>
      obtain ⟨ex, reason⟩ := pr
      cases hcl : classify tenv cfg rest with
      | error e2 =>
        rw [hcl] at ih
        simp only []
        intro hcon
        injection hcon with hcon
        exact ih (by rw [hcon])
      | ok pr2 =>
        obtain ⟨k2, e2⟩ := pr2
        cases ex <;> simp

/-- C8 (confirmed).  When either provider credential is absent from the
environment or blank after trimming, the run fails with the fatal
configuration error, and the result is independent of the provider
responses and the time library (no fetch, normalization or output
assembly is consulted); when both are present and non-blank, the
credential error is never raised. -/
theorem c8_credentials (env : Str → Option Str) (tenv tenv2 : TimeEnv)
    (resp resp2 : Str → ℕ → FetchResult) :
    ((getenv env "ADZUNA_APP_ID".toList none = none ∨
        getenv env "ADZUNA_APP_KEY".toList none = none) →
      runMain env tenv resp = .error .runtimeMissingCredentials ∧
      runMain env tenv resp = runMain env tenv2 resp2) ∧
    (getenv env "ADZUNA_APP_ID".toList none ≠ none →
      getenv env "ADZUNA_APP_KEY".toList none ≠ none →
      runMain env tenv resp ≠ .error .runtimeMissingCredentials) := by
  constructor
  · intro h
    have hbid : (buildConfig env).ADZUNA_APP_ID
        = getenv env "ADZUNA_APP_ID".toList none := rfl
    have hbkey : (buildConfig env).ADZUNA_APP_KEY
        = getenv env "ADZUNA_APP_KEY".toList none := rfl
    have hcond : (!pyTruthy (buildConfig env).ADZUNA_APP_ID
        || !pyTruthy (buildConfig env).ADZUNA_APP_KEY) = true := by
      rcases h with h | h
      · rw [hbid, h]
        simp [pyTruthy]
      · rw [hbkey, h]
        simp [pyTruthy]
    constructor
    · simp [runMain, hcond]
    · simp [runMain, hcond]
  · intro h1 h2
    have hbid : (buildConfig env).ADZUNA_APP_ID
        = getenv env "ADZUNA_APP_ID".toList none := rfl
    have hbkey : (buildConfig env).ADZUNA_APP_KEY
        = getenv env "ADZUNA_APP_KEY".toList none := rfl
    have hcond : (!pyTruthy (buildConfig env).ADZUNA_APP_ID
        || !pyTruthy (buildConfig env).ADZUNA_APP_KEY) = false := by
      cases hv1 : getenv env "ADZUNA_APP_ID".toList none with
      | none => exact absurd hv1 h1
      | some v1 =>
        cases hv2 : getenv env "ADZUNA_APP_KEY".toList none with
        | none => exact absurd hv2 h2
        | some v2 =>
          have e1 := getenv_some_nonempty hv1
          have e2 := getenv_some_nonempty hv2
          rw [hbid, hbkey, hv1, hv2]
          simp [pyTruthy, e1, e2]
    simp only [runMain, hcond, Bool.false_eq_true, if_false]
    cases hc : classify tenv (buildConfig env)
        (procKeywords resp (buildConfig env).ADZUNA_MAX_PAGES
          (buildConfig env).KEYWORDS ⟨[], []⟩ []).1.all_raw with
    | error e =>
      have := classify_ne_creds tenv (buildConfig env)
        (procKeywords resp (buildConfig env).ADZUNA_MAX_PAGES
          (buildConfig env).KEYWORDS ⟨[], []⟩ []).1.all_raw
      rw [hc] at this
      simp only []
      intro hcon
      injection hcon with hcon
      exact this (by rw [hcon])
    | ok pr =>
      obtain ⟨kept, excluded⟩ := pr
      simp

/-- Witness for C8: with an entirely absent environment the run is the
credential error; with the credentials of env_c4 it is not. -/
theorem c8_credentials_witness :
    runMain (fun _ => none) tenv0 (fun _ _ => .ok []) = .error .runtimeMissingCredentials ∧
    runMain env_c4 tenv0 (fun _ _ => .ok []) ≠ .error .runtimeMissingCredentials :=
  ⟨((c8_credentials (fun _ => none) tenv0 tenv0 (fun _ _ => .ok [])
        (fun _ _ => .ok [])).1 (Or.inl (by rfl))).1,
   (c8_credentials env_c4 tenv0 tenv0 (fun _ _ => .ok [])
        (fun _ _ => .ok [])).2 (by decide) (by decide)⟩

/-- Classification puts every retained pair into exactly one of the two
lists: the lengths add up. -/
theorem classify_length {tenv : TimeEnv} {cfg : Config} {l : List (Str × Raw)}
    {kept excluded : List Job}
    (h : classify tenv cfg l = .ok (kept, excluded)) :
    kept.length + excluded.length = l.length := by
  induction l generalizing kept excluded with
  | nil =>
    simp only [classify, Except.ok.injEq] at h
    obtain ⟨h1, h2⟩ := Prod.mk.injEq .. ▸ h
    simp [← h1, ← h2]
  | cons p rest ih =>
    obtain ⟨kw, raw⟩ := p
    simp only [classify] at h
    cases hse : should_exclude (build_job_obj tenv raw cfg.SALARY_MIN_YEAR) cfg with
    | error e => rw [hse] at h; cases h
    | ok pr =>
      obtain ⟨ex, reason⟩ := pr
      rw [hse] at h
      cases hcl : classify tenv cfg rest with
      | error e => rw [hcl] at h; cases h
      | ok pr2 =>
        obtain ⟨k2, e2⟩ := pr2
        rw [hcl] at h
        have ihl := ih hcl
        cases ex
        · simp only [Bool.false_eq_true, if_false, Except.ok.injEq] at h
          obtain ⟨h1, h2⟩ := Prod.mk.injEq .. ▸ h
          subst h1
          subst h2
          simp only [List.length_cons] at ihl ⊢
          omega
        · simp only [if_true, Except.ok.injEq] at h
          obtain ⟨h1, h2⟩ := Prod.mk.injEq .. ▸ h
          subst h1
          subst h2
          simp only [List.length_cons] at ihl ⊢
          omega

/-- Inserting a fresh key into the counter dict appends it. -/
theorem dictInsert_fresh {k : Str} {d : List (Str × ℕ)}
    (h : k ∉ d.map Prod.fst) (v : ℕ) :
    dictInsert k v d = d ++ [(k, v)] := by
  induction d with
  | nil => rfl
  | cons p rest ih =>
    obtain ⟨k0, v0⟩ := p
    simp only [List.map_cons, List.mem_cons] at h
    push_neg at h
    simp only [dictInsert]
    rw [if_neg fun he => h.1 he.symm]
    rw [ih h.2]
    rfl

/-- With pairwise distinct (trimmed, non-blank) keywords, the keyword
loop grows the counter-dict sum by exactly the growth of the retained
list. -/
theorem procKeywords_pkcSum (resp : Str → ℕ → FetchResult) (mp : ℕ) (kws : List Str)
    (st : FetchSt) (pkc : List (Str × ℕ))
    (hnd : (cleanKeywords kws).Nodup)
    (hfresh : ∀ k ∈ cleanKeywords kws, k ∉ pkc.map Prod.fst) :
    pkcSum (procKeywords resp mp kws st pkc).2 + st.all_raw.length
      = pkcSum pkc + (procKeywords resp mp kws st pkc).1.all_raw.length := by
  induction kws generalizing st pkc with
  | nil => rfl
  | cons kw0 rest ih =>
    simp only [procKeywords]
    by_cases hb : (stripStr kw0).isEmpty = true
    · have hcl : cleanKeywords (kw0 :: rest) = cleanKeywords rest := by
        simp [cleanKeywords, hb]
      rw [hcl] at hnd hfresh
      simp only [hb, if_true]
      exact ih st pkc hnd hfresh
    · have hcl : cleanKeywords (kw0 :: rest) = stripStr kw0 :: cleanKeywords rest := by
        simp [cleanKeywords, hb]
      rw [hcl] at hnd hfresh
      have hkw_not_rest : stripStr kw0 ∉ cleanKeywords rest := (List.nodup_cons.mp hnd).1
      have hnd2 := (List.nodup_cons.mp hnd).2
      have hkw_fresh : stripStr kw0 ∉ pkc.map Prod.fst :=
        hfresh _ (List.mem_cons_self _ _)
      simp only [hb, Bool.false_eq_true, if_false]
      rw [dictInsert_fresh hkw_fresh]
      have hcnt := procPages_cnt resp (stripStr kw0) (List.range' 1 mp) st 0
      have hsum : pkcSum (pkc ++ [(stripStr kw0,
          (procPages resp (stripStr kw0) (List.range' 1 mp) st 0).2)])
          = pkcSum pkc
            + (procPages resp (stripStr kw0) (List.range' 1 mp) st 0).2 := by
        simp [pkcSum]
      have ihh := ih (procPages resp (stripStr kw0) (List.range' 1 mp) st 0).1
        (pkc ++ [(stripStr kw0, (procPages resp (stripStr kw0) (List.range' 1 mp) st 0).2)])
        hnd2 ?_
      · rw [hsum] at ihh
        omega
      · intro k hk
        simp only [List.map_append, List.map_cons, List.map_nil, List.mem_append,
          List.mem_singleton]
        rintro (hk1 | hk2)
        · exact hfresh k (List.mem_cons_of_mem _ hk) hk1
        · exact hkw_not_rest (hk2 ▸ hk)

/-- C9 (confirmed).  In every produced output document, counts.kept
equals the length of the jobs array. -/
theorem c9_counts_kept (env : Str → Option Str) (tenv : TimeEnv)
    (resp : Str → ℕ → FetchResult) (out : Output)
    (h : runMain env tenv resp = .ok out) :
    out.counts.kept = out.jobs.length := by
  simp only [runMain] at h
  split at h
  · cases h
  · split at h
    · cases h
    · simp only [Except.ok.injEq] at h
      subst h
      rfl

/-- Witness for C9: the empty-responses run with credentials yields the
concrete output out_c9, for which the identity holds. -/
theorem c9_counts_kept_witness :
    out_c9.counts.kept = out_c9.jobs.length :=
  c9_counts_kept env_c4 tenv0 (fun _ _ => .ok []) out_c9 (by rfl)

/-- C10 (corrected).  In every produced output document,
counts.fetched_total equals counts.kept plus counts.excluded (every
retained pair is classified into exactly one list); and provided the
trimmed non-blank keywords are pairwise distinct, counts.fetched_total
also equals the sum over all keywords of the per-keyword hit counts. -/
theorem c10_count_identities (env : Str → Option Str) (tenv : TimeEnv)
    (resp : Str → ℕ → FetchResult) (out : Output)
    (h : runMain env tenv resp = .ok out) :
    out.counts.fetched_total = out.counts.kept + out.counts.excluded ∧
    ((cleanKeywords (buildConfig env).KEYWORDS).Nodup →
      out.counts.fetched_total = pkcSum out.counts.per_keyword) := by
  simp only [runMain] at h
  split at h
  · cases h
  · split at h
    · cases h
    · next kept excluded hcl =>
      simp only [Except.ok.injEq] at h
      subst h
      constructor
      · have hlen := classify_length hcl
        simp only [assembleOutput, List.length_insertionSort, sortKept]
        omega
      · intro hnd
        have hp := procKeywords_pkcSum resp (buildConfig env).ADZUNA_MAX_PAGES
          (buildConfig env).KEYWORDS ⟨[], []⟩ [] hnd (by simp)
        have hp0 : pkcSum ([] : List (Str × ℕ)) = 0 := rfl
        have hst : (⟨[], []⟩ : FetchSt).all_raw.length = 0 := rfl
        rw [hp0, hst] at hp
        simp only [assembleOutput]
        omega

/-- Witness for C10: on the concrete run producing out_c9 (distinct
keywords) both count identities hold. -/
theorem c10_count_identities_witness :
    out_c9.counts.fetched_total = out_c9.counts.kept + out_c9.counts.excluded ∧
    out_c9.counts.fetched_total = pkcSum out_c9.counts.per_keyword :=
  ⟨(c10_count_identities env_c4 tenv0 (fun _ _ => .ok []) out_c9 (by rfl)).1,
   (c10_count_identities env_c4 tenv0 (fun _ _ => .ok []) out_c9 (by rfl)).2 (by decide)⟩

/-- C10 counterexample.  With the duplicated keyword list
Webdesigner;Webdesigner the second pass re-encounters the sole record,
retains nothing, and overwrites the per-keyword entry with 0: the
output has fetched_total 1 but a per-keyword sum of 0, refuting the
claimed equality between fetched_total and the sum of hit counts. -/
theorem c10_counterexample :
    (runMain env_c10 tenv0 resp_c10).toOption.map
        (fun o => (o.counts.fetched_total, pkcSum o.counts.per_keyword))
      = some (1, 0) := by decide

end FetchBuild
